import Mathlib

/-!
# Link preview extractor: a shallow embedding

This file embeds the serverless link-preview function of the repository
(the Deno handler in `supabase/functions`, source file `src/unnamed/part_000`)
into Lean and proves properties of it.

The TypeScript source uses three platform facilities that are modelled here
explicitly:

* JavaScript regular-expression matching (`String.prototype.match` with the
  five meta-tag patterns and the `<title>` pattern, all with the `i` flag).
  Each pattern is embedded as a dedicated scanner over `List Char` that
  implements the leftmost-match, greedy-with-backtracking semantics of the
  concrete patterns used by the source.
* The WHATWG `URL` class (`new URL(s)` and `new URL(relative, base)`),
  modelled by `parseUrlL` / `resolveL`, restricted to `http`/`https` URLs
  (no IPv4/IPv6 canonicalisation, no IDNA, no percent-encoding during
  serialisation; ports are kept as digit strings).
* `TextDecoder`/`ReadableStream` chunked reads, modelled as a list of byte
  chunks (`readBody`).

All other definitions are direct translations of the source functions and
keep their names (`extractMetaContent`, `extractTitle`, `getDomain`,
`resolveUrl`, the request handler `handlePreview`).
-/

/-! ## Generic list scanning utilities -/

/-- Index of the first occurrence of `pat` as a contiguous sublist of `s`.
Models the search performed by JavaScript `String.prototype.replace` with a
string pattern (which replaces only the first occurrence). -/
def firstOcc : List Char → List Char → Option Nat
  | [], pat => if pat.isPrefixOf ([] : List Char) then some 0 else none
  | c :: cs, pat =>
    if pat.isPrefixOf (c :: cs) then some 0
    else (firstOcc cs pat).map (· + 1)

/-- JavaScript `s.replace(pat, '')` for a string pattern: remove the first
occurrence of `pat` from `s` (anywhere in `s`), or return `s` unchanged. -/
def replaceFirstL (s pat : List Char) : List Char :=
  match firstOcc s pat with
  | some i => s.take i ++ s.drop (i + pat.length)
  | none => s

/-- Whether `pat` occurs as a contiguous sublist of `s`; models the
(case-sensitive) JavaScript `String.prototype.includes`. -/
def hasSubstr (s pat : List Char) : Bool :=
  (firstOcc s pat).isSome

/-- JavaScript `String.prototype.trim`: remove leading and trailing
whitespace. -/
def trimL (l : List Char) : List Char :=
  ((l.dropWhile Char.isWhitespace).reverse.dropWhile Char.isWhitespace).reverse

/-! ## The regex machinery

The source matches HTML with six concrete regular expressions (all with the
`i` flag), of three shapes:

* `<meta[^>]*ATTR=["']VALUE["'][^>]*content=["']([^"']*)["']`   (forward)
* `<meta[^>]*content=["']([^"']*)["'][^>]*ATTR=["']VALUE["']`   (reverse)
* `<title[^>]*>([^<]*)<\/title>`                                (title tag)

They are embedded as scanners below.  `searchFrom` provides the leftmost
start position, `starThen` the greedy, backtracking `[^c]*` loop. -/

/-- The quote character class `["']` of the source patterns. -/
def isQuote (c : Char) : Bool := c = '"' || c = Char.ofNat 39

/-- Case-insensitive literal match: `pat` (given in lowercase ASCII) against
the head of `s`; returns the rest of `s` on success.  Models a literal inside
a regex with the `i` flag. -/
def dropLitCI : List Char → List Char → Option (List Char)
  | [], s => some s
  | _ :: _, [] => none
  | p :: ps, c :: cs => if c.toLower = p then dropLitCI ps cs else none

/-- Match one character of the class `["']`. -/
def dropQuote : List Char → Option (List Char)
  | [] => none
  | c :: cs => if isQuote c then some cs else none

/-- Greedy `[^x]*` followed by the continuation `k`: consume as many
characters as possible for which `bad` is false, then run `k`; on failure
backtrack to shorter consumptions (longest first, as a greedy regex star). -/
def starThen {α : Type} (bad : Char → Bool) (k : List Char → Option α) :
    List Char → Option α
  | [] => k []
  | c :: cs =>
    if bad c then k (c :: cs)
    else
      match starThen bad k cs with
      | some r => some r
      | none => k (c :: cs)

/-- The regex tail `([^"']*)["']`: the capture is the maximal run of
non-quote characters, which must be followed by a quote character (of either
kind).  Returns the capture and the input after the closing quote. -/
def captureQuoted (s : List Char) : Option (List Char × List Char) :=
  match s.dropWhile (fun c => !isQuote c) with
  | [] => none
  | _ :: rest => some (s.takeWhile (fun c => !isQuote c), rest)

/-- The regex fragment `ATTR=["']VALUE["']` (case-insensitive literals with a
quote class on each side of the value); returns the remaining input. -/
def attrLit (attr val : List Char) (s : List Char) : Option (List Char) := do
  let s1 ← dropLitCI attr s
  let s2 ← dropQuote s1
  let s3 ← dropLitCI val s2
  dropQuote s3

/-- The regex fragment `content=["']([^"']*)["']`, returning the capture. -/
def contentCapture (s : List Char) : Option (List Char) := do
  let s1 ← dropLitCI "content=".toList s
  let s2 ← dropQuote s1
  let (cap, _) ← captureQuoted s2
  pure cap

/-- Match of `<meta[^>]*ATTR=["']VAL["'][^>]*content=["']([^"']*)["']` at the
start of `s`, returning the capture. -/
def metaForwardAt (attr val : List Char) (s : List Char) : Option (List Char) := do
  let s1 ← dropLitCI "<meta".toList s
  starThen (· = '>') (fun s2 => do
    let s3 ← attrLit attr val s2
    starThen (· = '>') contentCapture s3) s1

/-- Match of `<meta[^>]*content=["']([^"']*)["'][^>]*ATTR=["']VAL["']` at the
start of `s`, returning the capture. -/
def metaReverseAt (attr val : List Char) (s : List Char) : Option (List Char) := do
  let s1 ← dropLitCI "<meta".toList s
  starThen (· = '>') (fun s2 => do
    let s3 ← dropLitCI "content=".toList s2
    let s4 ← dropQuote s3
    match captureQuoted s4 with
    | none => none
    | some (cap, s5) =>
      starThen (· = '>') (fun s6 => (attrLit attr val s6).map (fun _ => cap)) s5) s1

/-- Match of `<title[^>]*>([^<]*)<\/title>` at the start of `s`, returning
the capture. -/
def titleAt (s : List Char) : Option (List Char) := do
  let s1 ← dropLitCI "<title".toList s
  starThen (· = '>') (fun s2 =>
    match s2 with
    | '>' :: r =>
      let cap := r.takeWhile (· ≠ '<')
      let rest := r.dropWhile (· ≠ '<')
      (dropLitCI "</title>".toList rest).map (fun _ => cap)
    | _ => none) s1

/-- Leftmost search: try the pattern at every start position, earliest
first.  Models anchoring-free `String.prototype.match`. -/
def searchFrom {α : Type} (p : List Char → Option α) : List Char → Option α
  | [] => p []
  | c :: cs =>
    match p (c :: cs) with
    | some r => some r
    | none => searchFrom p cs

/-- Run a meta-pattern scanner over a whole HTML string; the result is the
first capture group of the first (leftmost) match, as in `html.match(re)`
followed by `match[1]`. -/
def matchMeta (pat : List Char → Option (List Char)) (html : String) :
    Option String :=
  (searchFrom pat html.toList).map String.mk

/-! ## Metadata extraction (source functions `extractMetaContent`,
`extractTitle`) -/

/-- First source pattern: `og:` property, `property` attribute first. -/
def metaOg1 (html property : String) : Option String :=
  matchMeta (metaForwardAt "property=".toList ("og:".toList ++ property.toList)) html

/-- Second source pattern: `og:` property with `content` before `property`. -/
def metaOg2 (html property : String) : Option String :=
  matchMeta (metaReverseAt "property=".toList ("og:".toList ++ property.toList)) html

/-- Third source pattern: `twitter:` name, `name` attribute first (the source
has no reversed variant for `twitter:`). -/
def metaTwitter (html property : String) : Option String :=
  matchMeta (metaForwardAt "name=".toList ("twitter:".toList ++ property.toList)) html

/-- Fourth source pattern (description only): `name="description"`. -/
def metaDescName (html : String) : Option String :=
  matchMeta (metaForwardAt "name=".toList "description".toList) html

/-- Fifth source pattern (description only): `content` before
`name="description"`. -/
def metaDescNameRev (html : String) : Option String :=
  matchMeta (metaReverseAt "name=".toList "description".toList) html

/-- Source function `extractMetaContent(html, property)`: try the five
patterns in order; the two `name="description"` patterns are used only when
`property` is `"description"`. -/
def extractMetaContent (html property : String) : Option String :=
  match metaOg1 html property with
  | some v => some v
  | none =>
    match metaOg2 html property with
    | some v => some v
    | none =>
      match metaTwitter html property with
      | some v => some v
      | none =>
        if property = "description" then
          match metaDescName html with
          | some v => some v
          | none => metaDescNameRev html
        else none

/-- The `<title>` element pattern of `extractTitle`. -/
def titleTagMatch (html : String) : Option String :=
  (searchFrom titleAt html.toList).map String.mk

/-- JavaScript `String.prototype.trim` on a Lean string. -/
def jsTrim (s : String) : String := String.mk (trimL s.toList)

/-- Source function `extractTitle(html)`: return the meta-extracted title if
it is truthy (non-null and non-empty); otherwise fall back to the trimmed
text of the `<title>` element; otherwise null. -/
def extractTitle (html : String) : Option String :=
  match extractMetaContent html "title" with
  | some t => if t = "" then (titleTagMatch html).map jsTrim else some t
  | none => (titleTagMatch html).map jsTrim

/-! ## The URL model

Model of the WHATWG `URL` class as used by the source (`new URL(url)` for
`getDomain`, `new URL(relative, base)` for `resolveUrl`).  Restricted to
`http`/`https` absolute URLs: hosts are lowercased and checked against the
forbidden host code points, but no IDNA, IPv4/IPv6 canonicalisation or
percent-encoding is performed, and bracketed (IPv6) hosts are rejected.
Non-special schemes in a relative position are passed through opaquely. -/

structure JsUrl where
  scheme : List Char
  host : List Char
  port : Option (List Char)
  path : List Char
  query : Option (List Char)
  fragment : Option (List Char)
deriving DecidableEq

/-- Forbidden host code points (WHATWG), restricted to those that can still
occur after authority splitting; brackets are handled separately. -/
def forbiddenHostChar (c : Char) : Bool :=
  c = ' ' || c = Char.ofNat 9 || c = Char.ofNat 10 || c = Char.ofNat 13 ||
  c = Char.ofNat 0 || c = '<' || c = '>' || c = '^' || c = '|'

/-- Split a path-query-fragment suffix into its three components. -/
def splitRef (rel : List Char) : List Char × Option (List Char) × Option (List Char) :=
  let beforeFrag := rel.takeWhile (· ≠ '#')
  let frag := if rel.contains '#' then some ((rel.dropWhile (· ≠ '#')).drop 1) else none
  let path := beforeFrag.takeWhile (· ≠ '?')
  let query :=
    if beforeFrag.contains '?' then some ((beforeFrag.dropWhile (· ≠ '?')).drop 1)
    else none
  (path, query, frag)

/-- WHATWG path-segment processing: `..` pops a segment, `.` is dropped; a
trailing `.` or `..` leaves an empty final segment (trailing slash). -/
def dotSegs : List (List Char) → List (List Char) → List (List Char)
  | acc, [] => acc
  | acc, seg :: rest =>
    if seg = "..".toList then
      if rest.isEmpty then acc.dropLast ++ [[]] else dotSegs (acc.dropLast) rest
    else if seg = ".".toList then
      if rest.isEmpty then acc ++ [[]] else dotSegs acc rest
    else dotSegs (acc ++ [seg]) rest

/-- Normalise a serialised path: backslashes count as slashes (special
schemes), a leading slash is ensured, and dot segments are processed. -/
def normPath (p : List Char) : List Char :=
  let p := p.map (fun c => if c = '\\' then '/' else c)
  let p := if p.head? = some '/' then p else '/' :: p
  '/' :: List.intercalate ['/'] (dotSegs [] ((p.drop 1).splitOn '/'))

/-- Parse the (possibly absent) port of an authority: empty or absent ports
are dropped, digit-only ports are kept (default ports omitted, as in
`URL.prototype.port`), anything else is a parse failure. -/
def parsePort (scheme : List Char) : List Char → Option (Option (List Char))
  | [] => some none
  | _ :: p =>
    if p = [] then some none
    else if p.all Char.isDigit then
      if (scheme = "http".toList && p = "80".toList) ||
         (scheme = "https".toList && p = "443".toList) then some none
      else some (some p)
    else none

/-- Parse the remainder of an `http(s)` URL after `scheme://`. -/
def parseAfterScheme (scheme rest : List Char) : Option JsUrl :=
  let isAuthEnd : Char → Bool := fun c => c = '/' || c = '\\' || c = '?' || c = '#'
  let authority := rest.takeWhile (fun c => !isAuthEnd c)
  let afterAuth := rest.dropWhile (fun c => !isAuthEnd c)
  let hostport := (authority.reverse.takeWhile (· ≠ '@')).reverse
  let host := (hostport.takeWhile (· ≠ ':')).map Char.toLower
  let portRaw := hostport.dropWhile (· ≠ ':')
  if host = [] then none
  else if host.any forbiddenHostChar || host.contains '[' || host.contains ']' then none
  else
    match parsePort scheme portRaw with
    | none => none
    | some port =>
      let pqf := splitRef afterAuth
      some { scheme := scheme, host := host, port := port,
             path := normPath (if pqf.1 = [] then ['/'] else pqf.1),
             query := pqf.2.1, fragment := pqf.2.2 }

/-- Model of the WHATWG absolute-URL parser, restricted to `http`/`https`
(the only forms the handler ever produces: every parsed string starts with
`http://` or `https://`, matched case-insensitively). -/
def parseUrlL (s : List Char) : Option JsUrl :=
  match dropLitCI "https://".toList s with
  | some rest => parseAfterScheme "https".toList rest
  | none =>
    match dropLitCI "http://".toList s with
    | some rest => parseAfterScheme "http".toList rest
    | none => none

/-- Serialisation of a parsed URL (`URL.prototype.href`). -/
def hrefL (u : JsUrl) : List Char :=
  u.scheme ++ "://".toList ++ u.host ++
  (match u.port with | some p => ':' :: p | none => []) ++
  u.path ++
  (match u.query with | some q => '?' :: q | none => []) ++
  (match u.fragment with | some f => '#' :: f | none => [])

/-- Source function `getDomain(url)`:
`try { return new URL(url).hostname.replace('www.', ''); } catch { return url; }`.
Note that `replace` removes the first occurrence of `www.` anywhere in the
hostname, not only a leading prefix. -/
def getDomain (url : String) : String :=
  match parseUrlL url.toList with
  | some u => String.mk (replaceFirstL u.host "www.".toList)
  | none => url

/-- Split a leading URL scheme (`ALPHA (ALPHA|DIGIT|+|-|.)* :`) off a
reference, if present. -/
def schemeSplit (l : List Char) : Option (List Char × List Char) :=
  match l with
  | [] => none
  | c :: rest =>
    if c.isAlpha then
      let isSchemeChar : Char → Bool := fun d => d.isAlphanum || d = '+' || d = '-' || d = '.'
      match rest.dropWhile isSchemeChar with
      | ':' :: r => some (c :: rest.takeWhile isSchemeChar, r)
      | _ => none
    else none

/-- The directory part of a base path: everything up to and including the
last slash. -/
def dirOf (path : List Char) : List Char :=
  (path.reverse.dropWhile (· ≠ '/')).reverse

/-- Model of WHATWG relative-reference resolution against a parsed base
(`new URL(relative, base)` after the base has been parsed): a reference with
an `http(s)` scheme is parsed absolutely, another scheme is passed through
opaquely, `//…` takes the base scheme, `/…` replaces the path, `?…` and
`#…` replace the query/fragment, and anything else is merged with the
directory of the base path. -/
def resolveL (rel : List Char) (b : JsUrl) : Option (List Char) :=
  if rel = [] then some (hrefL { b with fragment := none })
  else
    match schemeSplit rel with
    | some (sch, _) =>
      if sch.map Char.toLower = "http".toList || sch.map Char.toLower = "https".toList then
        (parseUrlL rel).map hrefL
      else some rel
    | none =>
      if ("//".toList).isPrefixOf rel then
        (parseUrlL (b.scheme ++ ':' :: rel)).map hrefL
      else
        if (splitRef rel).1 = [] then
          match (splitRef rel).2.1 with
          | some q => some (hrefL { b with query := some q, fragment := (splitRef rel).2.2 })
          | none => some (hrefL { b with fragment := (splitRef rel).2.2 })
        else if (splitRef rel).1.head? = some '/' || (splitRef rel).1.head? = some '\\' then
          some (hrefL { b with path := normPath (splitRef rel).1,
                               query := (splitRef rel).2.1, fragment := (splitRef rel).2.2 })
        else
          some (hrefL { b with path := normPath (dirOf b.path ++ (splitRef rel).1),
                               query := (splitRef rel).2.1, fragment := (splitRef rel).2.2 })

/-- Model of `new URL(relative, base).href`: the base is parsed first (an
invalid base is always a failure), then the reference is resolved. -/
def jsUrlResolve (rel base : String) : Option String :=
  match parseUrlL base.toList with
  | none => none
  | some b => (resolveL rel.toList b).map String.mk

/-- Source function `resolveUrl(base, relative)`. -/
def resolveUrl (base relative : String) : String :=
  if relative = "" then ""
  else if ("http://".toList).isPrefixOf relative.toList
       || ("https://".toList).isPrefixOf relative.toList then relative
  else if ("//".toList).isPrefixOf relative.toList then "https:" ++ relative
  else
    match jsUrlResolve relative base with
    | some href => href
    | none => relative

/-! ## The request handler (`Deno.serve` body)

The handler is embedded as a function of the parsed request body and of the
outcome of the outbound fetch.  `RequestBody.badJson msg` stands for the
paths on which the handler's outer `try` catches a thrown error (for example
`req.json()` failing); `msg` is the error's message.  A successful fetch
outcome carries the response's `ok` flag, its `content-type` header and the
decoded HTML text accumulated by the bounded body read (the byte-level read
loop itself is modelled separately by `readBody`). -/

structure LinkPreview where
  title : Option String
  description : Option String
  image : Option String
  domain : String
  url : String
deriving DecidableEq

inductive FetchOutcome where
  | fetchError : FetchOutcome
  | response (ok : Bool) (contentType : Option String) (html : String) : FetchOutcome
deriving DecidableEq

inductive RequestBody where
  | badJson (msg : String) : RequestBody
  | json (url : Option String) : RequestBody
deriving DecidableEq

/-- The three response shapes of the handler: HTTP 200 with
`{ success: true, data }`, HTTP 400 with `{ success: false, error }` (no
`data` field), and HTTP 500 with `{ success: false, error }`. -/
inductive HandlerResult where
  | ok (data : LinkPreview) : HandlerResult
  | clientError (error : String) : HandlerResult
  | serverError (error : String) : HandlerResult
deriving DecidableEq

/-- URL formatting step of the handler: trim, then prepend `https://` unless
the string already starts with `http://` or `https://` (case-sensitively,
as JavaScript `startsWith`). -/
def formatUrlL (l : List Char) : List Char :=
  if ("http://".toList).isPrefixOf (trimL l) || ("https://".toList).isPrefixOf (trimL l)
  then trimL l
  else "https://".toList ++ trimL l

/-- String-level wrapper of `formatUrlL`. -/
def formatUrl (url : String) : String := String.mk (formatUrlL url.toList)

/-- JavaScript `s.substring(0, n)`: the first `n` characters. -/
def jsSubstring (s : String) (n : Nat) : String := String.mk (s.toList.take n)

/-- The handler's `x ? x.substring(0, n) : null` step applied to an
extraction result: a null or empty value becomes null, a non-empty value is
truncated to `n` characters. -/
def jsTruthyTrunc (v : Option String) (n : Nat) : Option String :=
  match v with
  | none => none
  | some s => if s = "" then none else some (jsSubstring s n)

/-- The domain-and-url-only preview built on all fetch fallback paths. -/
def fallbackPreview (formattedUrl : String) : LinkPreview :=
  { title := none, description := none, image := none,
    domain := getDomain formattedUrl, url := formattedUrl }

/-- The preview built from fetched HTML: extraction, image resolution
(guarded by the truthiness of the raw image value), truncation. -/
def buildPreview (formattedUrl html : String) : LinkPreview :=
  let title := extractTitle html
  let description := extractMetaContent html "description"
  let image :=
    match extractMetaContent html "image" with
    | none => none
    | some img => if img = "" then some img else some (resolveUrl formattedUrl img)
  { title := jsTruthyTrunc title 200,
    description := jsTruthyTrunc description 300,
    image := image,
    domain := getDomain formattedUrl,
    url := formattedUrl }

/-- `(contentType || '').includes('text/html')` of the source. -/
def containsSubstrS (s pat : String) : Bool := hasSubstr s.toList pat.toList

/-- The request handler.  Follows the source control flow: 500 on a thrown
error, 400 on a missing or falsy `url` field, and otherwise a 200 success
response — a fallback preview when the fetch failed, the response status was
not ok, or the content type does not contain `text/html`; a full preview
otherwise. -/
def handlePreview (body : RequestBody) (fetch : FetchOutcome) : HandlerResult :=
  match body with
  | .badJson msg => .serverError msg
  | .json urlField =>
    match urlField with
    | none => .clientError "URL is required"
    | some url =>
      if url = "" then .clientError "URL is required"
      else
        let formattedUrl := formatUrl url
        match fetch with
        | .fetchError => .ok (fallbackPreview formattedUrl)
        | .response rok contentType html =>
          if !rok then .ok (fallbackPreview formattedUrl)
          else if !(containsSubstrS (contentType.getD "") "text/html") then
            .ok (fallbackPreview formattedUrl)
          else .ok (buildPreview formattedUrl html)

/-! ## The bounded body read loop -/

/-- The source's cap: `const maxBytes = 100 * 1024`. -/
def maxBytes : Nat := 100 * 1024

/-- The bounded read loop over the response body, with chunks as byte lists:
`while (bytesRead < maxBytes) { read; if done break; html += chunk;
bytesRead += chunk.length }`.  The check happens before each read and a
fetched chunk is always appended whole. -/
def readBody : List (List Nat) → Nat → List Nat
  | [], _ => []
  | chunk :: rest, bytesRead =>
    if bytesRead < maxBytes then chunk ++ readBody rest (bytesRead + chunk.length)
    else []

/-! ## Basic facts about the embedding -/

theorem toList_mk (l : List Char) : (String.mk l).toList = l := rfl

theorem mk_toList (s : String) : String.mk s.toList = s := rfl

theorem mk_eq_empty_iff (l : List Char) : String.mk l = "" ↔ l = [] := by
  constructor
  · intro h
    have := congrArg String.toList h
    simpa [toList_mk] using this
  · intro h; subst h; rfl

theorem mk_append (a b : List Char) : String.mk a ++ String.mk b = String.mk (a ++ b) := rfl

/-- If a greedy star followed by `k` succeeds, then `k` succeeded at some
position. -/
theorem starThen_eq_some {α : Type} {bad : Char → Bool} {k : List Char → Option α}
    {s : List Char} {r : α} (h : starThen bad k s = some r) :
    ∃ t, k t = some r := by
  induction s with
  | nil => exact ⟨[], h⟩
  | cons c cs ih =>
    by_cases hb : bad c
    · rw [starThen, if_pos hb] at h
      exact ⟨c :: cs, h⟩
    · rw [starThen, if_neg hb] at h
      cases hrec : starThen bad k cs with
      | some r2 =>
        rw [hrec] at h
        cases h
        exact ih hrec
      | none =>
        rw [hrec] at h
        exact ⟨c :: cs, h⟩

/-- If a leftmost search succeeds, the pattern succeeded at some position. -/
theorem searchFrom_eq_some {α : Type} {p : List Char → Option α}
    {l : List Char} {r : α} (h : searchFrom p l = some r) :
    ∃ t, p t = some r := by
  induction l with
  | nil => exact ⟨[], h⟩
  | cons c cs ih =>
    rw [searchFrom] at h
    cases hp : p (c :: cs) with
    | some r2 =>
      rw [hp] at h
      cases h
      exact ⟨c :: cs, hp⟩
    | none =>
      rw [hp] at h
      exact ih h

/-- Captures produced by `captureQuoted` contain no quote characters. -/
theorem captureQuoted_quoteFree {s cap rest : List Char}
    (h : captureQuoted s = some (cap, rest)) :
    ∀ c ∈ cap, isQuote c = false := by
  rw [captureQuoted] at h
  cases hd : s.dropWhile (fun c => !isQuote c) with
  | nil => rw [hd] at h; cases h
  | cons a r =>
    rw [hd] at h
    cases h
    intro c hc
    have := List.mem_takeWhile_imp hc
    simpa using this

/-- Captures produced by `contentCapture` contain no quote characters. -/
theorem contentCapture_quoteFree {s cap : List Char}
    (h : contentCapture s = some cap) :
    ∀ c ∈ cap, isQuote c = false := by
  rw [contentCapture] at h
  simp only [bind, Option.bind_eq_some] at h
  obtain ⟨s1, _, h⟩ := h
  obtain ⟨s2, _, h⟩ := h
  obtain ⟨⟨cap2, rest⟩, h3, h4⟩ := h
  cases h4
  exact captureQuoted_quoteFree h3

/-- Captures produced by the forward meta pattern contain no quote
characters. -/
theorem metaForwardAt_quoteFree {attr val s cap : List Char}
    (h : metaForwardAt attr val s = some cap) :
    ∀ c ∈ cap, isQuote c = false := by
  rw [metaForwardAt] at h
  simp only [bind, Option.bind_eq_some] at h
  obtain ⟨s1, _, h⟩ := h
  obtain ⟨s2, hk⟩ := starThen_eq_some h
  simp only [Option.bind_eq_some] at hk
  obtain ⟨s3, _, hk⟩ := hk
  obtain ⟨s4, hc⟩ := starThen_eq_some hk
  exact contentCapture_quoteFree hc

/-- Captures produced by the reverse meta pattern contain no quote
characters. -/
theorem metaReverseAt_quoteFree {attr val s cap : List Char}
    (h : metaReverseAt attr val s = some cap) :
    ∀ c ∈ cap, isQuote c = false := by
  rw [metaReverseAt] at h
  simp only [bind, Option.bind_eq_some] at h
  obtain ⟨s1, _, h⟩ := h
  obtain ⟨s2, hk⟩ := starThen_eq_some h
  simp only [Option.bind_eq_some] at hk
  obtain ⟨s3, _, hk⟩ := hk
  obtain ⟨s4, _, hk⟩ := hk
  cases hcap : captureQuoted s4 with
  | none => rw [hcap] at hk; cases hk
  | some capRest =>
    obtain ⟨cap2, s5⟩ := capRest
    rw [hcap] at hk
    obtain ⟨s6, hm⟩ := starThen_eq_some hk
    simp only [Option.map_eq_some'] at hm
    obtain ⟨s7, _, hm2⟩ := hm
    cases hm2
    exact captureQuoted_quoteFree hcap

/-- Any value returned by a `matchMeta` over a forward or reverse pattern is
quote-free. -/
theorem matchMeta_forward_quoteFree {attr val : List Char} {html v : String}
    (h : matchMeta (metaForwardAt attr val) html = some v) :
    ∀ c ∈ v.toList, isQuote c = false := by
  rw [matchMeta] at h
  simp only [Option.map_eq_some'] at h
  obtain ⟨cap, hs, hv⟩ := h
  obtain ⟨t, hp⟩ := searchFrom_eq_some hs
  subst hv
  simpa [toList_mk] using metaForwardAt_quoteFree hp

theorem matchMeta_reverse_quoteFree {attr val : List Char} {html v : String}
    (h : matchMeta (metaReverseAt attr val) html = some v) :
    ∀ c ∈ v.toList, isQuote c = false := by
  rw [matchMeta] at h
  simp only [Option.map_eq_some'] at h
  obtain ⟨cap, hs, hv⟩ := h
  obtain ⟨t, hp⟩ := searchFrom_eq_some hs
  subst hv
  simpa [toList_mk] using metaReverseAt_quoteFree hp

/-- Any value returned by `extractMetaContent` is quote-free. -/
theorem extractMetaContent_quoteFree {html prop v : String}
    (h : extractMetaContent html prop = some v) :
    ∀ c ∈ v.toList, isQuote c = false := by
  rw [extractMetaContent] at h
  cases h1 : metaOg1 html prop with
  | some w =>
    rw [h1] at h; cases h
    exact matchMeta_forward_quoteFree h1
  | none =>
    rw [h1] at h
    cases h2 : metaOg2 html prop with
    | some w =>
      rw [h2] at h; cases h
      exact matchMeta_reverse_quoteFree h2
    | none =>
      rw [h2] at h
      cases h3 : metaTwitter html prop with
      | some w =>
        rw [h3] at h; cases h
        exact matchMeta_forward_quoteFree h3
      | none =>
        rw [h3] at h
        by_cases hd : prop = "description"
        · rw [if_pos hd] at h
          cases h4 : metaDescName html with
          | some w =>
            rw [h4] at h; cases h
            exact matchMeta_forward_quoteFree h4
          | none =>
            rw [h4] at h
            exact matchMeta_reverse_quoteFree h
        · rw [if_neg hd] at h
          cases h

/-! ## Facts about `firstOcc` and `replaceFirstL` -/

theorem firstOcc_of_isPrefixOf {s pat : List Char} (h : pat.isPrefixOf s = true) :
    firstOcc s pat = some 0 := by
  cases s with
  | nil => rw [firstOcc, if_pos h]
  | cons c cs => rw [firstOcc, if_pos h]

/-- Correctness of `firstOcc`: the pattern occurs at the reported index. -/
theorem firstOcc_isPrefixOf_drop {s pat : List Char} {i : Nat}
    (h : firstOcc s pat = some i) : pat.isPrefixOf (s.drop i) = true := by
  induction s generalizing i with
  | nil =>
    rw [firstOcc] at h
    split at h
    · cases h; simpa using ‹pat.isPrefixOf ([] : List Char) = true›
    · cases h
  | cons c cs ih =>
    rw [firstOcc] at h
    split at h
    · cases h
      simpa using ‹pat.isPrefixOf (c :: cs) = true›
    · cases hr : firstOcc cs pat with
      | none => rw [hr] at h; cases h
      | some j =>
        rw [hr] at h
        cases h
        simpa using ih hr

theorem replaceFirstL_of_isPrefixOf {s pat : List Char} (h : pat.isPrefixOf s = true) :
    replaceFirstL s pat = s.drop pat.length := by
  rw [replaceFirstL, firstOcc_of_isPrefixOf h]
  simp

theorem replaceFirstL_of_not_hasSubstr {s pat : List Char}
    (h : hasSubstr s pat = false) : replaceFirstL s pat = s := by
  rw [replaceFirstL]
  cases hf : firstOcc s pat with
  | none => rfl
  | some i => rw [hasSubstr, hf] at h; cases h

/-! ## Facts about the URL model -/

theorem parseAfterScheme_scheme {sch rest : List Char} {u : JsUrl}
    (h : parseAfterScheme sch rest = some u) : u.scheme = sch := by
  simp only [parseAfterScheme] at h
  split at h
  · cases h
  · split at h
    · cases h
    · split at h
      · cases h
      · cases h
        rfl

theorem parseUrlL_scheme {l : List Char} {u : JsUrl} (h : parseUrlL l = some u) :
    u.scheme = "http".toList ∨ u.scheme = "https".toList := by
  rw [parseUrlL] at h
  cases h1 : dropLitCI "https://".toList l with
  | some rest =>
    rw [h1] at h
    exact Or.inr (parseAfterScheme_scheme h)
  | none =>
    rw [h1] at h
    cases h2 : dropLitCI "http://".toList l with
    | some rest =>
      rw [h2] at h
      exact Or.inl (parseAfterScheme_scheme h)
    | none => rw [h2] at h; cases h

theorem hrefL_ne_nil {u : JsUrl}
    (h : u.scheme = "http".toList ∨ u.scheme = "https".toList) : hrefL u ≠ [] := by
  have h4 : "http".toList = ['h', 't', 't', 'p'] := by decide
  have h5 : "https".toList = ['h', 't', 't', 'p', 's'] := by decide
  rw [hrefL]
  rcases h with h | h <;> rw [h] <;> simp [h4, h5]

theorem resolveL_ne_nil {rel : List Char} {b : JsUrl} {r : List Char}
    (hb : b.scheme = "http".toList ∨ b.scheme = "https".toList)
    (hrel : rel ≠ []) (h : resolveL rel b = some r) : r ≠ [] := by
  rw [resolveL, if_neg hrel] at h
  split at h
  · split at h
    · obtain ⟨u, hu, hr⟩ := Option.map_eq_some'.mp h
      subst hr
      exact hrefL_ne_nil (parseUrlL_scheme hu)
    · cases h
      exact hrel
  · split at h
    · obtain ⟨u, hu, hr⟩ := Option.map_eq_some'.mp h
      subst hr
      exact hrefL_ne_nil (parseUrlL_scheme hu)
    · split at h
      · split at h
        · cases h
          exact hrefL_ne_nil hb
        · cases h
          exact hrefL_ne_nil hb
      · split at h
        · cases h
          exact hrefL_ne_nil hb
        · cases h
          exact hrefL_ne_nil hb

theorem jsUrlResolve_ne_empty {rel base href : String}
    (hrel : rel ≠ "") (h : jsUrlResolve rel base = some href) : href ≠ "" := by
  rw [jsUrlResolve] at h
  cases hbase : parseUrlL base.toList with
  | none => rw [hbase] at h; cases h
  | some b =>
    rw [hbase] at h
    simp only [Option.map_eq_some'] at h
    obtain ⟨r, hr, hhref⟩ := h
    subst href
    rw [Ne, mk_eq_empty_iff]
    refine resolveL_ne_nil (parseUrlL_scheme hbase) ?_ hr
    intro hnil
    apply hrel
    have := congrArg String.mk hnil
    simpa [mk_toList] using this

theorem resolveUrl_ne_empty {base rel : String} (hrel : rel ≠ "") :
    resolveUrl base rel ≠ "" := by
  rw [resolveUrl, if_neg hrel]
  split
  · exact hrel
  · split
    · intro hcontra
      have : ("https:" ++ rel).toList = "".toList := congrArg String.toList hcontra
      simp [String.toList] at this
    · cases hres : jsUrlResolve rel base with
      | none => exact hrel
      | some href => exact jsUrlResolve_ne_empty hrel hres

/-! ## Facts about trimming and URL formatting -/

theorem dropWhile_head_false {p : Char → Bool} {l : List Char} {c : Char} {cs : List Char}
    (h : l.dropWhile p = c :: cs) : p c = false := by
  induction l with
  | nil => cases h
  | cons a as ih =>
    rw [List.dropWhile_cons] at h
    split at h
    · exact ih h
    · next hpa =>
      cases h
      simpa using hpa

theorem dropWhile_idem {p : Char → Bool} {l : List Char} :
    (l.dropWhile p).dropWhile p = l.dropWhile p := by
  cases h : l.dropWhile p with
  | nil => rfl
  | cons c cs => simp [List.dropWhile_cons, dropWhile_head_false h]

theorem dropWhile_append_self {p : Char → Bool} {a b : List Char}
    (ha : a.dropWhile p = a) (hb : b.dropWhile p = b) :
    (a ++ b).dropWhile p = a ++ b := by
  cases a with
  | nil => simpa using hb
  | cons c cs =>
    have hc : p c = false := dropWhile_head_false ha
    simp [List.dropWhile_cons, hc]

/-- A list with no leading and no trailing whitespace is a fixed point of
trimming. -/
theorem trimL_fixed {a : List Char}
    (h1 : a.dropWhile Char.isWhitespace = a)
    (h2 : a.reverse.dropWhile Char.isWhitespace = a.reverse) :
    trimL a = a := by
  rw [trimL, h1, h2, List.reverse_reverse]

/-- The untrimmed list is the trimmed list followed by its trailing
whitespace. -/
theorem trimL_decomp (l : List Char) :
    l.dropWhile Char.isWhitespace =
      trimL l ++
        ((l.dropWhile Char.isWhitespace).reverse.takeWhile Char.isWhitespace).reverse := by
  have h1 := List.takeWhile_append_dropWhile (p := Char.isWhitespace)
      (l := (l.dropWhile Char.isWhitespace).reverse)
  have h2 := congrArg List.reverse h1
  rw [List.reverse_append, List.reverse_reverse] at h2
  rw [trimL]
  exact h2.symm

/-- A trimmed list has no leading whitespace. -/
theorem dropWhile_trimL (l : List Char) :
    (trimL l).dropWhile Char.isWhitespace = trimL l := by
  cases h : trimL l with
  | nil => rfl
  | cons c cs =>
    have hd := trimL_decomp l
    rw [h, List.cons_append] at hd
    have hc : Char.isWhitespace c = false := dropWhile_head_false hd
    simp [List.dropWhile_cons, hc]

/-- A trimmed list has no trailing whitespace. -/
theorem trimL_reverse_dropWhile (l : List Char) :
    (trimL l).reverse.dropWhile Char.isWhitespace = (trimL l).reverse := by
  have h3 : (trimL l).reverse =
      (l.dropWhile Char.isWhitespace).reverse.dropWhile Char.isWhitespace := by
    rw [trimL, List.reverse_reverse]
  rw [h3]
  exact dropWhile_idem

theorem isPrefixOf_append_self (l x : List Char) : l.isPrefixOf (l ++ x) = true := by
  induction l with
  | nil => simp [List.isPrefixOf]
  | cons c cs ih => simp [List.isPrefixOf, ih]

/-- A formatted URL is already trimmed. -/
theorem trimL_formatUrlL (l : List Char) : trimL (formatUrlL l) = formatUrlL l := by
  by_cases hc : (("http://".toList).isPrefixOf (trimL l)
      || ("https://".toList).isPrefixOf (trimL l)) = true
  · rw [formatUrlL, if_pos hc]
    exact trimL_fixed (dropWhile_trimL l) (trimL_reverse_dropWhile l)
  · rw [formatUrlL, if_neg hc]
    refine trimL_fixed ?_ ?_
    · exact dropWhile_append_self (by decide) (dropWhile_trimL l)
    · rw [List.reverse_append]
      exact dropWhile_append_self (trimL_reverse_dropWhile l) (by decide)

/-- A formatted URL starts with `http://` or `https://`. -/
theorem formatUrlL_scheme_check (l : List Char) :
    (("http://".toList).isPrefixOf (trimL (formatUrlL l))
      || ("https://".toList).isPrefixOf (trimL (formatUrlL l))) = true := by
  rw [trimL_formatUrlL]
  by_cases hc : (("http://".toList).isPrefixOf (trimL l)
      || ("https://".toList).isPrefixOf (trimL l)) = true
  · rw [formatUrlL, if_pos hc]
    exact hc
  · rw [formatUrlL, if_neg hc]
    rw [isPrefixOf_append_self]
    simp

/-- URL formatting is idempotent. -/
theorem formatUrlL_idem (l : List Char) : formatUrlL (formatUrlL l) = formatUrlL l := by
  conv_lhs => rw [formatUrlL]
  rw [if_pos (formatUrlL_scheme_check l)]
  exact trimL_formatUrlL l

/-! ## Facts about preview construction and the read loop -/

/-- The `x ? x.substring(0, n) : null` step never produces an empty
string (for a positive truncation bound). -/
theorem jsTruthyTrunc_ne_some_empty {v : Option String} {n : Nat} (hn : 0 < n) :
    jsTruthyTrunc v n ≠ some "" := by
  cases v with
  | none => simp [jsTruthyTrunc]
  | some s =>
    show (if s = "" then none else some (jsSubstring s n)) ≠ some ""
    by_cases hs : s = ""
    · rw [if_pos hs]
      simp
    · rw [if_neg hs]
      intro hcontra
      have h1 : jsSubstring s n = "" := by injection hcontra
      rw [jsSubstring, mk_eq_empty_iff, List.take_eq_nil_iff] at h1
      rcases h1 with h1 | h1
      · omega
      · apply hs
        rw [← mk_toList s, h1]

/-- Auxiliary bound for the read loop: either the total number of bytes read
so far stays under `maxBytes + k`, or nothing was appended. -/
theorem readBody_length_aux (k : Nat) :
    ∀ (chunks : List (List Nat)) (n : Nat), (∀ c ∈ chunks, c.length ≤ k) →
      n + (readBody chunks n).length < maxBytes + k ∨ (readBody chunks n).length = 0 := by
  intro chunks
  induction chunks with
  | nil =>
    intro n _
    right
    rfl
  | cons c rest ih =>
    intro n hk
    by_cases hn : n < maxBytes
    · rw [readBody, if_pos hn]
      have hc : c.length ≤ k := hk c (by simp)
      have hrest : ∀ c2 ∈ rest, c2.length ≤ k := fun c2 h2 => hk c2 (by simp [h2])
      rcases ih (n + c.length) hrest with h | h
      · left
        rw [List.length_append]
        omega
      · left
        rw [List.length_append, h]
        omega
    · rw [readBody, if_neg hn]
      right
      rfl

/-! ## Claim theorems -/

/-- C1: whenever the outbound fetch fails, or the response status is not a
success status, or the response content type does not contain `text/html`,
the handler returns a 200 success response whose data has only `domain` and
`url` populated and `title`, `description`, `image` absent; no error is
surfaced. -/
theorem fallback_paths_return_success :
    (∀ url : String, url ≠ "" →
      handlePreview (.json (some url)) .fetchError =
        .ok { title := none, description := none, image := none,
              domain := getDomain (formatUrl url), url := formatUrl url }) ∧
    (∀ (url : String) (ct : Option String) (html : String), url ≠ "" →
      handlePreview (.json (some url)) (.response false ct html) =
        .ok { title := none, description := none, image := none,
              domain := getDomain (formatUrl url), url := formatUrl url }) ∧
    (∀ (url : String) (ct : Option String) (html : String), url ≠ "" →
      containsSubstrS (ct.getD "") "text/html" = false →
      handlePreview (.json (some url)) (.response true ct html) =
        .ok { title := none, description := none, image := none,
              domain := getDomain (formatUrl url), url := formatUrl url }) := by
  refine ⟨fun url h => ?_, fun url ct html h => ?_, fun url ct html h hct => ?_⟩
  · simp [handlePreview, fallbackPreview, h]
  · simp [handlePreview, fallbackPreview, h]
  · simp [handlePreview, fallbackPreview, h, hct]

/-- Witness for C1 at concrete inputs: an unroutable-host fetch failure, a
404-style response, and an `application/pdf` response all yield the
domain-only success result. -/
theorem fallback_paths_return_success_witness :
    handlePreview (.json (some "example.com")) .fetchError =
      .ok { title := none, description := none, image := none,
            domain := getDomain (formatUrl "example.com"),
            url := formatUrl "example.com" } ∧
    handlePreview (.json (some "example.com"))
        (.response false (some "text/html") "<title>x</title>") =
      .ok { title := none, description := none, image := none,
            domain := getDomain (formatUrl "example.com"),
            url := formatUrl "example.com" } ∧
    handlePreview (.json (some "example.com"))
        (.response true (some "application/pdf") "<title>x</title>") =
      .ok { title := none, description := none, image := none,
            domain := getDomain (formatUrl "example.com"),
            url := formatUrl "example.com" } :=
  ⟨fallback_paths_return_success.1 "example.com" (by decide),
   fallback_paths_return_success.2.1 "example.com" (some "text/html") "<title>x</title>"
     (by decide),
   fallback_paths_return_success.2.2 "example.com" (some "application/pdf")
     "<title>x</title>" (by decide) (by decide)⟩

/-- C9: the status contract of the handler — a missing or empty `url` field
yields a 400 client error carrying no data, a thrown internal error yields a
500 with its message, and every other request yields a 200 success response
with data. -/
theorem status_contract :
    (∀ fetch, handlePreview (.json none) fetch = .clientError "URL is required") ∧
    (∀ fetch, handlePreview (.json (some "")) fetch = .clientError "URL is required") ∧
    (∀ (msg : String) fetch, handlePreview (.badJson msg) fetch = .serverError msg) ∧
    (∀ (url : String) fetch, url ≠ "" →
      ∃ data, handlePreview (.json (some url)) fetch = .ok data) := by
  refine ⟨fun fetch => ?_, fun fetch => ?_, fun msg fetch => ?_, fun url fetch h => ?_⟩
  · simp [handlePreview]
  · simp [handlePreview]
  · simp [handlePreview]
  · cases fetch with
    | fetchError =>
      exact ⟨fallbackPreview (formatUrl url), by simp [handlePreview, h]⟩
    | response rok ct html =>
      cases rok with
      | false => exact ⟨fallbackPreview (formatUrl url), by simp [handlePreview, h]⟩
      | true =>
        by_cases hct : containsSubstrS (ct.getD "") "text/html" = true
        · exact ⟨buildPreview (formatUrl url) html, by simp [handlePreview, h, hct]⟩
        · exact ⟨fallbackPreview (formatUrl url), by simp [handlePreview, h, hct]⟩

/-- Witness for C9 at concrete inputs. -/
theorem status_contract_witness :
    handlePreview (.json none) .fetchError = .clientError "URL is required" ∧
    handlePreview (.json (some "")) .fetchError = .clientError "URL is required" ∧
    handlePreview (.badJson "boom") .fetchError = .serverError "boom" ∧
    ∃ data, handlePreview (.json (some "example.com"))
        (.response true (some "text/html") "<title>T</title>") = .ok data :=
  ⟨status_contract.1 .fetchError, status_contract.2.1 .fetchError,
   status_contract.2.2.1 "boom" .fetchError,
   status_contract.2.2.2 "example.com"
     (.response true (some "text/html") "<title>T</title>") (by decide)⟩

/-- C2 counterexample: an HTML page whose `og:image` meta tag has an empty
`content` attribute makes the handler return a preview whose `image` field
is present and equal to the empty string — the claim that `image` is never
the empty string fails on the code (`title`/`description` get the
`x ? … : null` guard, `image` does not). -/
theorem preview_empty_image_cex :
    handlePreview (.json (some "example.com"))
        (.response true (some "text/html")
          "<meta property=\"og:image\" content=\"\">") =
      .ok { title := none, description := none, image := some "",
            domain := "example.com", url := "https://example.com" } := by
  decide

/-- C2 (amended): in every success response, `domain` and `url` are present
(total fields of the result), and `title` and `description` are never the
empty string; `image` is the empty string exactly when the raw extracted
meta image value is the empty string (for non-empty raw values the resolved
image is non-empty). -/
theorem preview_field_emptiness :
    (∀ body fetch data, handlePreview body fetch = .ok data →
      data.title ≠ some "" ∧ data.description ≠ some "") ∧
    (∀ f html : String, extractMetaContent html "image" ≠ some "" →
      (buildPreview f html).image ≠ some "") ∧
    (∀ f html : String, extractMetaContent html "image" = some "" →
      (buildPreview f html).image = some "") := by
  refine ⟨fun body fetch data h => ?_, fun f html hne => ?_, fun f html he => ?_⟩
  · cases body with
    | badJson msg => simp [handlePreview] at h
    | json urlField =>
      cases urlField with
      | none => simp [handlePreview] at h
      | some url =>
        by_cases hu : url = ""
        · simp [handlePreview, hu] at h
        · cases fetch with
          | fetchError =>
            simp [handlePreview, hu] at h
            subst h
            simp [fallbackPreview]
          | response rok ct html =>
            cases rok with
            | false =>
              simp [handlePreview, hu] at h
              subst h
              simp [fallbackPreview]
            | true =>
              by_cases hct : containsSubstrS (ct.getD "") "text/html" = true
              · simp [handlePreview, hu, hct] at h
                subst h
                constructor
                · simp only [buildPreview]
                  exact jsTruthyTrunc_ne_some_empty (by norm_num)
                · simp only [buildPreview]
                  exact jsTruthyTrunc_ne_some_empty (by norm_num)
              · simp [handlePreview, hu, hct] at h
                subst h
                simp [fallbackPreview]
  · simp only [buildPreview]
    cases hi : extractMetaContent html "image" with
    | none => simp
    | some img =>
      show (if img = "" then some img else some (resolveUrl f img)) ≠ some ""
      have himg : img ≠ "" := by
        intro hc
        subst hc
        exact hne hi
      rw [if_neg himg]
      intro hc
      have : resolveUrl f img = "" := by injection hc
      exact resolveUrl_ne_empty himg this
  · simp [buildPreview, he]

/-- Witness for the amended C2 at concrete inputs. -/
theorem preview_field_emptiness_witness :
    ((fallbackPreview "https://example.com").title ≠ some "" ∧
      (fallbackPreview "https://example.com").description ≠ some "") ∧
    (buildPreview "https://example.com"
        "<meta property=\"og:image\" content=\"/x.png\">").image ≠ some "" :=
  ⟨preview_field_emptiness.1 (.json (some "example.com")) .fetchError
      (fallbackPreview "https://example.com") (by decide),
   preview_field_emptiness.2.1 "https://example.com"
      "<meta property=\"og:image\" content=\"/x.png\">" (by decide)⟩

/-- C3 counterexample: in the HTML below, the `og:title` meta tag matches
with an empty captured value and the `twitter:title` meta tag matches with
value `Tw`, yet the reported title is the `<title>` text `T`: an empty
`og:title` falls through directly to the `<title>` element, skipping
`twitter:title`.  Moreover a `twitter:title` tag with its attributes in
reversed order is not matched at all (the source has no reversed `twitter`
pattern), so the claim that every level tolerates either attribute order
also fails. -/
theorem title_precedence_cex :
    (metaOg1 "<meta property=\"og:title\" content=\"\"><meta name=\"twitter:title\" content=\"Tw\"><title>T</title>" "title" = some "" ∧
     metaTwitter "<meta property=\"og:title\" content=\"\"><meta name=\"twitter:title\" content=\"Tw\"><title>T</title>" "title" = some "Tw" ∧
     extractTitle "<meta property=\"og:title\" content=\"\"><meta name=\"twitter:title\" content=\"Tw\"><title>T</title>" = some "T") ∧
    extractTitle "<meta content=\"Tw\" name=\"twitter:title\">" = none := by
  exact ⟨⟨by decide, by decide, by decide⟩, by decide⟩

/-- C3 (amended): the title is determined by the precedence `og:title`
(either attribute order, case-insensitively) → `twitter:title` (only in the
`name`-before-`content` order) → trimmed `<title>` text, except that a
matched meta title whose captured value is empty falls through directly to
the `<title>` element. -/
theorem title_precedence :
    (∀ (html t : String), extractMetaContent html "title" = some t → t ≠ "" →
      extractTitle html = some t) ∧
    (∀ html : String, extractMetaContent html "title" = none →
      extractTitle html = (titleTagMatch html).map jsTrim) ∧
    (∀ (html t : String), metaOg1 html "title" = some t →
      extractMetaContent html "title" = some t) ∧
    (∀ html : String, metaOg1 html "title" = none → metaOg2 html "title" = none →
      extractMetaContent html "title" = metaTwitter html "title") ∧
    extractTitle "<meta property=\"og:title\" content=\"A\"/><title>B</title>" = some "A" ∧
    extractTitle "<META PROPERTY=\"OG:TITLE\" CONTENT=\"X\">" = some "X" := by
  refine ⟨fun html t h ht => ?_, fun html h => ?_, fun html t h => ?_,
    fun html h1 h2 => ?_, by decide, by decide⟩
  · simp [extractTitle, h, ht]
  · simp [extractTitle, h]
  · simp [extractMetaContent, h]
  · simp only [extractMetaContent, h1, h2]
    cases h3 : metaTwitter html "title" <;> simp [h3]

/-- Witness for the amended C3 at concrete inputs. -/
theorem title_precedence_witness :
    extractTitle "<meta property=\"og:title\" content=\"A\"><title>B</title>" = some "A" ∧
    extractTitle "<p>no meta title</p><title> B </title>" =
      (titleTagMatch "<p>no meta title</p><title> B </title>").map jsTrim ∧
    extractMetaContent "<meta property=\"og:title\" content=\"A\"><title>B</title>" "title" = some "A" ∧
    extractMetaContent "<meta name=\"twitter:title\" content=\"Tw\">" "title" =
      metaTwitter "<meta name=\"twitter:title\" content=\"Tw\">" "title" :=
  ⟨title_precedence.1 "<meta property=\"og:title\" content=\"A\"><title>B</title>" "A"
      (by decide) (by decide),
   title_precedence.2.1 "<p>no meta title</p><title> B </title>" (by decide),
   title_precedence.2.2.1 "<meta property=\"og:title\" content=\"A\"><title>B</title>" "A"
      (by decide),
   title_precedence.2.2.2.1 "<meta name=\"twitter:title\" content=\"Tw\">"
      (by decide) (by decide)⟩

/-- C4 counterexample: for the URL `https://sub.www.example.com/` the parsed
host is `sub.www.example.com`, which does not begin with `www.`, yet the
reported domain is `sub.example.com` — `hostname.replace('www.', '')`
removes the first occurrence of `www.` anywhere in the host, not only a
leading prefix.  And on a parse failure inside the pipeline (input ` x y`),
the reported domain is the normalized URL `https://x y`, not the original
unnormalized input ` x y`. -/
theorem domain_www_cex :
    (parseUrlL "https://sub.www.example.com/".toList).map JsUrl.host =
        some "sub.www.example.com".toList ∧
    ("www.".toList).isPrefixOf "sub.www.example.com".toList = false ∧
    getDomain "https://sub.www.example.com/" = "sub.example.com" ∧
    handlePreview (.json (some " x y")) .fetchError =
      .ok { title := none, description := none, image := none,
            domain := "https://x y", url := "https://x y" } ∧
    "https://x y" ≠ " x y" := by
  exact ⟨by decide, by decide, by decide, by decide, by decide⟩

/-- C4 (amended): the reported domain is the parsed host with the first
occurrence of the literal `www.` removed, wherever it occurs: a leading
`www.` is stripped exactly once, a host not containing `www.` at all is
unchanged, and when URL parsing fails, `getDomain` returns its input (which
in the pipeline is the normalized URL).  The last conjunct certifies that
`firstOcc` reports genuine occurrences. -/
theorem domain_extraction :
    (∀ (url : String) (u : JsUrl), parseUrlL url.toList = some u →
      ("www.".toList).isPrefixOf u.host = true →
      getDomain url = String.mk (u.host.drop 4)) ∧
    (∀ (url : String) (u : JsUrl), parseUrlL url.toList = some u →
      hasSubstr u.host "www.".toList = false →
      getDomain url = String.mk u.host) ∧
    (∀ url : String, parseUrlL url.toList = none → getDomain url = url) ∧
    (∀ (s pat : List Char) (i : Nat), firstOcc s pat = some i →
      pat.isPrefixOf (s.drop i) = true) := by
  refine ⟨fun url u hp hw => ?_, fun url u hp hn => ?_, fun url hp => ?_,
    fun s pat i h => firstOcc_isPrefixOf_drop h⟩
  · simp only [getDomain, hp]
    rw [replaceFirstL_of_isPrefixOf hw]
    have h4 : ("www.".toList).length = 4 := by decide
    rw [h4]
  · simp only [getDomain, hp]
    rw [replaceFirstL_of_not_hasSubstr hn]
  · simp only [getDomain, hp]

/-- Witness for the amended C4 at concrete inputs. -/
theorem domain_extraction_witness :
    getDomain "https://www.example.com/page" =
      String.mk ("www.example.com".toList.drop 4) ∧
    getDomain "https://api.example.com/" = String.mk "api.example.com".toList ∧
    getDomain "https://x y" = "https://x y" ∧
    ("ab".toList).isPrefixOf ("xab".toList.drop 1) = true :=
  ⟨by
    have h := domain_extraction.1 "https://www.example.com/page"
      { scheme := "https".toList, host := "www.example.com".toList, port := none,
        path := "/page".toList, query := none, fragment := none }
      (by decide) (by decide)
    simpa using h,
   by
    have h := domain_extraction.2.1 "https://api.example.com/"
      { scheme := "https".toList, host := "api.example.com".toList, port := none,
        path := "/".toList, query := none, fragment := none }
      (by decide) (by decide)
    simpa using h,
   domain_extraction.2.2.1 "https://x y" (by decide),
   domain_extraction.2.2.2 "xab".toList "ab".toList 1 (by decide)⟩

/-- C5: image resolution — a value starting with `http://` or `https://`
passes through unchanged; otherwise a value starting with `//` is prefixed
with `https:`; otherwise the value is resolved as a relative reference
against the page's normalized URL, and on resolution failure the raw value
passes through unchanged.  The two concrete conjuncts are the spec's
examples. -/
theorem image_resolution :
    (∀ base rel : String,
      (("http://".toList).isPrefixOf rel.toList
        || ("https://".toList).isPrefixOf rel.toList) = true →
      resolveUrl base rel = rel) ∧
    (∀ base rel : String,
      (("http://".toList).isPrefixOf rel.toList
        || ("https://".toList).isPrefixOf rel.toList) = false →
      ("//".toList).isPrefixOf rel.toList = true →
      resolveUrl base rel = "https:" ++ rel) ∧
    (∀ base rel : String, rel ≠ "" →
      (("http://".toList).isPrefixOf rel.toList
        || ("https://".toList).isPrefixOf rel.toList) = false →
      ("//".toList).isPrefixOf rel.toList = false →
      jsUrlResolve rel base = none →
      resolveUrl base rel = rel) ∧
    resolveUrl "https://example.com/page" "/img/cover.png" =
      "https://example.com/img/cover.png" ∧
    resolveUrl "https://example.com/page" "//cdn.example.com/x.png" =
      "https://cdn.example.com/x.png" := by
  refine ⟨fun base rel hpre => ?_, fun base rel hpre hslash => ?_,
    fun base rel hrel hpre hslash hres => ?_, by decide, by decide⟩
  · by_cases hrel : rel = ""
    · subst hrel
      exact absurd hpre (by decide)
    · rw [resolveUrl, if_neg hrel, if_pos hpre]
  · by_cases hrel : rel = ""
    · subst hrel
      exact absurd hslash (by decide)
    · have hpre2 : ¬(("http://".toList).isPrefixOf rel.toList
          || ("https://".toList).isPrefixOf rel.toList) = true := by
        rw [hpre]
        simp
      rw [resolveUrl, if_neg hrel, if_neg hpre2, if_pos hslash]
  · have hpre2 : ¬(("http://".toList).isPrefixOf rel.toList
        || ("https://".toList).isPrefixOf rel.toList) = true := by
      rw [hpre]
      simp
    have hslash2 : ¬(("//".toList).isPrefixOf rel.toList) = true := by
      rw [hslash]
      simp
    rw [resolveUrl, if_neg hrel, if_neg hpre2, if_neg hslash2, hres]

/-- Witness for C5 at concrete inputs: an absolute URL passes through, a
protocol-relative URL gets the `https:` prefix, and a relative path against
an unparsable base passes through raw. -/
theorem image_resolution_witness :
    resolveUrl "https://a.example/p" "http://b.example/x.png" = "http://b.example/x.png" ∧
    resolveUrl "https://a.example/p" "//c.example/y.png" = "https:" ++ "//c.example/y.png" ∧
    resolveUrl "https://x y" "img.png" = "img.png" :=
  ⟨image_resolution.1 "https://a.example/p" "http://b.example/x.png" (by decide),
   image_resolution.2.1 "https://a.example/p" "//c.example/y.png" (by decide) (by decide),
   image_resolution.2.2.1 "https://x y" "img.png" (by decide) (by decide) (by decide)
     (by decide)⟩

/-- Any value produced by the truncation step has length at most `n`. -/
theorem jsTruthyTrunc_length {v : Option String} {n : Nat} {s : String}
    (h : jsTruthyTrunc v n = some s) : s.toList.length ≤ n := by
  cases v with
  | none => cases h
  | some t =>
    have h2 : (if t = "" then none else some (jsSubstring t n)) = some s := h
    split at h2
    · cases h2
    · cases h2
      rw [jsSubstring, toList_mk]
      exact List.length_take_le n _

/-- C6: the returned title is truncated to at most 200 characters (a longer
title comes back as exactly its first 200 characters), the returned
description is truncated to at most 300 characters, and the image URL and
the domain are the full untruncated values. -/
theorem truncation_bounds :
    (∀ (f html s : String), (buildPreview f html).title = some s →
      s.toList.length ≤ 200) ∧
    (∀ (f html s : String), (buildPreview f html).description = some s →
      s.toList.length ≤ 300) ∧
    (∀ (f html t : String), extractTitle html = some t → 200 < t.toList.length →
      (buildPreview f html).title = some (jsSubstring t 200) ∧
      (jsSubstring t 200).toList.length = 200) ∧
    (∀ f html : String, (buildPreview f html).domain = getDomain f) ∧
    (∀ (f html img : String), extractMetaContent html "image" = some img → img ≠ "" →
      (buildPreview f html).image = some (resolveUrl f img)) := by
  refine ⟨fun f html s h => ?_, fun f html s h => ?_, fun f html t ht hlen => ?_,
    fun f html => ?_, fun f html img hi himg => ?_⟩
  · simp only [buildPreview] at h
    exact jsTruthyTrunc_length h
  · simp only [buildPreview] at h
    exact jsTruthyTrunc_length h
  · have htne : t ≠ "" := by
      intro hc
      subst hc
      simp at hlen
    constructor
    · simp only [buildPreview, ht]
      show (if t = "" then none else some (jsSubstring t 200)) = some (jsSubstring t 200)
      rw [if_neg htne]
    · rw [jsSubstring, toList_mk, List.length_take]
      omega
  · simp only [buildPreview]
  · simp only [buildPreview, hi]
    show (if img = "" then some img else some (resolveUrl f img)) = some (resolveUrl f img)
    rw [if_neg himg]

set_option maxRecDepth 100000 in
/-- Witness for C6 at a concrete input: a 250-character title is truncated
to exactly its first 200 characters. -/
theorem truncation_bounds_witness :
    extractTitle ("<title>" ++ String.mk (List.replicate 250 'a') ++ "</title>") =
      some (String.mk (List.replicate 250 'a')) ∧
    200 < (String.mk (List.replicate 250 'a')).toList.length ∧
    (buildPreview "https://a.example"
        ("<title>" ++ String.mk (List.replicate 250 'a') ++ "</title>")).title =
      some (jsSubstring (String.mk (List.replicate 250 'a')) 200) ∧
    (jsSubstring (String.mk (List.replicate 250 'a')) 200).toList.length = 200 := by
  have h1 : extractTitle ("<title>" ++ String.mk (List.replicate 250 'a') ++ "</title>") =
      some (String.mk (List.replicate 250 'a')) := by decide
  have h2 : 200 < (String.mk (List.replicate 250 'a')).toList.length := by
    rw [toList_mk, List.length_replicate]
    omega
  have h3 := truncation_bounds.2.2.1 "https://a.example"
    ("<title>" ++ String.mk (List.replicate 250 'a') ++ "</title>")
    (String.mk (List.replicate 250 'a')) h1 h2
  exact ⟨h1, h2, h3.1, h3.2⟩

/-- C7: URL normalization trims surrounding whitespace and prepends
`https://` exactly when the trimmed string does not begin with `http://` or
`https://`; normalization is idempotent. -/
theorem url_normalization :
    (∀ u : String,
      (("http://".toList).isPrefixOf (jsTrim u).toList
        || ("https://".toList).isPrefixOf (jsTrim u).toList) = false →
      formatUrl u = "https://" ++ jsTrim u) ∧
    (∀ u : String,
      (("http://".toList).isPrefixOf (jsTrim u).toList
        || ("https://".toList).isPrefixOf (jsTrim u).toList) = true →
      formatUrl u = jsTrim u) ∧
    (∀ u : String, formatUrl (formatUrl u) = formatUrl u) := by
  refine ⟨fun u h => ?_, fun u h => ?_, fun u => ?_⟩
  · have h2 : (("http://".toList).isPrefixOf (trimL u.toList)
        || ("https://".toList).isPrefixOf (trimL u.toList)) = false := h
    have h3 : ¬(("http://".toList).isPrefixOf (trimL u.toList)
        || ("https://".toList).isPrefixOf (trimL u.toList)) = true :=
      fun hc => absurd (h2 ▸ hc) (by decide)
    rw [formatUrl, formatUrlL, if_neg h3]
    rfl
  · have h2 : (("http://".toList).isPrefixOf (trimL u.toList)
        || ("https://".toList).isPrefixOf (trimL u.toList)) = true := h
    rw [formatUrl, formatUrlL, if_pos h2]
    rfl
  · show String.mk (formatUrlL (formatUrlL u.toList)) = String.mk (formatUrlL u.toList)
    exact congrArg String.mk (formatUrlL_idem u.toList)

/-- Witness for C7 at concrete inputs: a scheme-less input gains `https://`
once, a schemed input only loses its surrounding whitespace, and re-running
normalization changes nothing. -/
theorem url_normalization_witness :
    formatUrl " example.com " = "https://" ++ jsTrim " example.com " ∧
    formatUrl " http://example.com " = jsTrim " http://example.com " ∧
    formatUrl (formatUrl " example.com ") = formatUrl " example.com " :=
  ⟨url_normalization.1 " example.com " (by decide),
   url_normalization.2.1 " http://example.com " (by decide),
   url_normalization.2.2 " example.com "⟩

/-- C8 counterexample: a single 200 KiB chunk is appended whole — the loop
checks the cap only before each read, so the accumulated text exceeds
100 KiB. -/
theorem body_read_cap_cex :
    maxBytes = 102400 ∧
    (readBody [List.replicate 204800 0] 0).length = 204800 ∧
    102400 < 204800 := by
  refine ⟨rfl, ?_, by omega⟩
  have h0 : ∀ n, readBody [] n = [] := fun n => rfl
  rw [readBody, if_pos (by norm_num [maxBytes]), h0, List.append_nil,
    List.length_replicate]

/-- C8 (amended): the loop stops reading once at least 100 KiB has
accumulated, but the final chunk is appended whole, so for chunks of size
at most `k` the accumulated text is bounded by `maxBytes + k` (strictly),
not by `maxBytes` itself. -/
theorem body_read_bound :
    ∀ (chunks : List (List Nat)) (k : Nat), (∀ c ∈ chunks, c.length ≤ k) →
      (readBody chunks 0).length < maxBytes + k := by
  intro chunks k hk
  rcases readBody_length_aux k chunks 0 hk with h | h
  · omega
  · rw [h]
    have : 0 < maxBytes := by norm_num [maxBytes]
    omega

/-- Witness for the amended C8 at a concrete input. -/
theorem body_read_bound_witness :
    (∀ c ∈ [[0, 1], [2]], List.length c ≤ 2) ∧
    (readBody [[0, 1], [2]] 0).length < maxBytes + 2 :=
  ⟨by decide, body_read_bound [[0, 1], [2]] 2 (by decide)⟩

/-- C10: every meta-tag value extracted by `extractMetaContent` (title,
description or image) contains no double-quote and no single-quote
character — the capture stops at the first quote of either kind, so
`content="it's fine"` yields just `it`. -/
theorem meta_values_quote_free :
    (∀ (html prop v : String), extractMetaContent html prop = some v →
      ∀ c ∈ v.toList, c ≠ '"' ∧ c ≠ Char.ofNat 39) ∧
    extractMetaContent
      (String.mk ("<meta property=\"og:image\" content=\"it".toList ++
        [Char.ofNat 39] ++ "s fine\">".toList)) "image" = some "it" := by
  refine ⟨fun html prop v h c hc => ?_, by decide⟩
  have hq := extractMetaContent_quoteFree h c hc
  rw [isQuote] at hq
  constructor
  · intro hcontra
    rw [hcontra] at hq
    simp at hq
  · intro hcontra
    rw [hcontra] at hq
    simp at hq

/-- Witness for C10 at a concrete input. -/
theorem meta_values_quote_free_witness :
    extractMetaContent "<meta property=\"og:image\" content=\"xy\">" "image" =
      some "xy" ∧
    ('x' ≠ '"' ∧ 'x' ≠ Char.ofNat 39) :=
  ⟨by decide,
   meta_values_quote_free.1 "<meta property=\"og:image\" content=\"xy\">" "image" "xy"
     (by decide) 'x' (by decide)⟩
